import Mathlib

/-!
Verification of the recipe-catalog service (FastAPI + SQLAlchemy).

The store is modelled relationally, as in `models.py`: a table of recipe
rows and a table of ingredient rows with a foreign key `recipe_id`, plus
the autoincrement counters the database assigns primary keys from.
The four data-access operations of `crud.py` and the three endpoints of
`main.py` are embedded as pure functions over this store, and the pydantic
validation of `schemas.py` as a boolean predicate on the request payload.
-/

namespace RecipeService

/-- A row of the `recipes` table (`models.py`, class `Recipe`):
integer primary key, name, cook time in minutes, view counter,
description. -/
structure Recipe where
  id : Nat
  name : String
  cook_time_minutes : Int
  views : Nat
  description : String
deriving Repr, DecidableEq

/-- A row of the `ingredients` table (`models.py`, class `Ingredient`):
integer primary key, non-null foreign key `recipe_id` into `recipes`,
and a name. -/
structure Ingredient where
  id : Nat
  recipe_id : Nat
  name : String
deriving Repr, DecidableEq

/-- The relational store: the two tables, kept in insertion (= primary
key) order as SQLite returns them, together with the autoincrement
counters for the next primary keys. -/
structure Store where
  recipes : List Recipe
  ingredients : List Ingredient
  nextRecipeId : Nat
  nextIngredientId : Nat
deriving Repr, DecidableEq

/-- The empty store right after `init_models` creates the tables;
SQLite assigns primary keys starting from 1. -/
def Store.init : Store := ⟨[], [], 1, 1⟩

/-- The ingredient rows of one recipe, as the `selectin` relationship
loader materialises them: the rows whose foreign key matches, in
primary-key (= insertion) order. -/
def ingredientsOf (s : Store) (rid : Nat) : List Ingredient :=
  s.ingredients.filter (fun i => i.recipe_id == rid)

/-- The ingredient rows inserted for one recipe: one row per supplied
name, in order, with successive autoincrement primary keys starting at
`nid` and the foreign key `rid`. -/
def ingredientRows (rid : Nat) : Nat → List String → List Ingredient
  | _, [] => []
  | nid, n :: rest => Ingredient.mk nid rid n :: ingredientRows rid (nid + 1) rest

/-- `crud.create_recipe`: build a `Recipe` with `views=0`, append one
`Ingredient` per supplied name in order, commit, and return the
refreshed row. Primary keys are assigned from the autoincrement
counters. -/
def create_recipe (s : Store) (name : String) (cook_time_minutes : Int)
    (description : String) (ingredients : List String) : Recipe × Store :=
  let rid := s.nextRecipeId
  let recipe : Recipe :=
    { id := rid, name := name, cook_time_minutes := cook_time_minutes,
      views := 0, description := description }
  (recipe,
    { recipes := s.recipes ++ [recipe],
      ingredients := s.ingredients ++ ingredientRows rid s.nextIngredientId ingredients,
      nextRecipeId := rid + 1,
      nextIngredientId := s.nextIngredientId + ingredients.length })

/-- The `ORDER BY` relation of `crud.list_recipes_sorted`:
`views DESC, cook_time_minutes ASC, id ASC`. -/
def recLE (a b : Recipe) : Prop :=
  b.views < a.views ∨
    (a.views = b.views ∧
      (a.cook_time_minutes < b.cook_time_minutes ∨
        (a.cook_time_minutes = b.cook_time_minutes ∧ a.id ≤ b.id)))

instance : DecidableRel recLE := fun a b => by
  unfold recLE; infer_instance

instance : IsTotal Recipe recLE where
  total a b := by unfold recLE; omega

instance : IsTrans Recipe recLE where
  trans a b c := by unfold recLE; omega

/-- `crud.list_recipes_sorted`: all recipe rows, ordered by
`views DESC, cook_time_minutes ASC, id ASC`. -/
def list_recipes_sorted (s : Store) : List Recipe :=
  s.recipes.insertionSort recLE

/-- `crud.get_recipe_by_id`: point lookup by primary key. -/
def get_recipe_by_id (s : Store) (recipe_id : Nat) : Option Recipe :=
  s.recipes.find? (fun r => r.id == recipe_id)

/-- `crud.increment_views_and_get`: look the recipe up; if absent return
`none` with the store untouched; otherwise add 1 to its `views` column,
commit, and return the refreshed row. -/
def increment_views_and_get (s : Store) (recipe_id : Nat) :
    Option Recipe × Store :=
  match get_recipe_by_id s recipe_id with
  | none => (none, s)
  | some r =>
    (some { r with views := r.views + 1 },
      { s with recipes := s.recipes.map (fun q =>
          if q.id == recipe_id then { q with views := q.views + 1 } else q) })

/-- The request body of `POST /recipes` (`schemas.RecipeCreate`), with
each `IngredientIn` reduced to its sole field `name` as `main.post_recipe`
does. -/
structure RecipeCreate where
  name : String
  cook_time_minutes : Int
  description : String
  ingredients : List String
deriving Repr, DecidableEq

/-- The pydantic constraints of `schemas.py`:
`name : constr(min_length=1, max_length=200)`,
`cook_time_minutes : conint(ge=1, le=24*60)`,
`description : constr(min_length=1)`, and every ingredient name
`constr(min_length=1, max_length=200)`. -/
def validCreate (p : RecipeCreate) : Bool :=
  decide (1 ≤ p.name.length) && decide (p.name.length ≤ 200) &&
  decide (1 ≤ p.cook_time_minutes) && decide (p.cook_time_minutes ≤ 24 * 60) &&
  decide (1 ≤ p.description.length) &&
  p.ingredients.all (fun n => decide (1 ≤ n.length) && decide (n.length ≤ 200))

/-- The response shape of `GET /recipes/{id}` and `POST /recipes`
(`schemas.RecipeDetail`). -/
structure RecipeDetail where
  id : Nat
  name : String
  cook_time_minutes : Int
  views : Nat
  ingredients : List String
  description : String
deriving Repr, DecidableEq

/-- The response shape of `GET /recipes` items (`schemas.RecipeListItem`). -/
structure RecipeListItem where
  id : Nat
  name : String
  views : Nat
  cook_time_minutes : Int
deriving Repr, DecidableEq

/-- Build a `RecipeDetail` from a recipe row as `main.py` does:
`ingredients=[i.name for i in recipe.ingredients]`. -/
def detailOf (s : Store) (r : Recipe) : RecipeDetail :=
  { id := r.id, name := r.name, cook_time_minutes := r.cook_time_minutes,
    views := r.views, ingredients := (ingredientsOf s r.id).map (·.name),
    description := r.description }

/-- `GET /recipes` (`main.get_recipes`): the sorted rows projected to
list items; a pure query, the store is returned unchanged. -/
def get_recipes (s : Store) : List RecipeListItem × Store :=
  ((list_recipes_sorted s).map
    (fun r => RecipeListItem.mk r.id r.name r.views r.cook_time_minutes), s)

/-- `GET /recipes/{id}` (`main.get_recipe`): increment-and-get; on
`none` raise HTTP 404, else return the full detail. The error side
carries the HTTP status code. -/
def get_recipe (s : Store) (recipe_id : Nat) : Except Nat RecipeDetail × Store :=
  match increment_views_and_get s recipe_id with
  | (none, s1) => (Except.error 404, s1)
  | (some r, s1) => (Except.ok (detailOf s1 r), s1)

/-- `POST /recipes` (`main.post_recipe`): FastAPI rejects the body with
HTTP 422 before the handler runs when pydantic validation fails;
otherwise the handler creates the recipe and answers 201 with its
detail. -/
def post_recipe (s : Store) (p : RecipeCreate) : Except Nat RecipeDetail × Store :=
  if validCreate p then
    let res := create_recipe s p.name p.cook_time_minutes p.description p.ingredients
    (Except.ok (detailOf res.2 res.1), res.2)
  else
    (Except.error 422, s)

/-- The store after `k` sequential calls of `GET /recipes/{id}` for the
same id. -/
def afterDetailCalls (s : Store) (recipe_id : Nat) : Nat → Store
  | 0 => s
  | k + 1 => (get_recipe (afterDetailCalls s recipe_id k) recipe_id).2

/-- A small concrete store used to instantiate the theorems: one recipe
with one ingredient. -/
def exampleStore : Store :=
  ⟨[Recipe.mk 1 "A" 5 0 "d"], [Ingredient.mk 1 1 "x"], 2, 2⟩

/-- The rejection condition exactly as the claim words it (to be
compared with the pydantic constraints `validCreate` taken from
`schemas.py`): name empty or longer than 200 characters,
cook_time_minutes less than 1 or greater than 1440, description empty,
or some ingredient name empty or longer than 200 characters. -/
def claimViolation (p : RecipeCreate) : Prop :=
  p.name.length = 0 ∨ 200 < p.name.length ∨
  p.cook_time_minutes < 1 ∨ 1440 < p.cook_time_minutes ∨
  p.description.length = 0 ∨
  ∃ n ∈ p.ingredients, n.length = 0 ∨ 200 < n.length

/-- Well-formedness of a store, as the database schema guarantees it:
primary keys below the autoincrement counters, foreign keys below the
recipe counter, and distinct recipe primary keys. -/
structure WF (s : Store) : Prop where
  recipeIdLt : ∀ r ∈ s.recipes, r.id < s.nextRecipeId
  ingIdLt : ∀ i ∈ s.ingredients, i.id < s.nextIngredientId
  fkLt : ∀ i ∈ s.ingredients, i.recipe_id < s.nextRecipeId
  idsNodup : (s.recipes.map Recipe.id).Nodup

/-- Store states reachable from the freshly initialised database through
the data-access operations (the two that write; the two queries do not
change the store). -/
inductive Reachable : Store → Prop where
  | init : Reachable Store.init
  | create (s : Store) (name : String) (ctm : Int) (desc : String)
      (ings : List String) :
      Reachable s → Reachable (create_recipe s name ctm desc ings).2
  | incr (s : Store) (rid : Nat) :
      Reachable s → Reachable (increment_views_and_get s rid).2

/-! ### Helper lemmas -/

theorem wf_init : WF Store.init := by
  constructor <;> simp [Store.init]

/-- The rows inserted for a new recipe all carry its foreign key, so the
relationship filter keeps them all, in order. -/
theorem ingredientRows_filter_names (rid : Nat) (ings : List String) : ∀ nid,
    ((ingredientRows rid nid ings).filter (fun i => i.recipe_id == rid)).map
        Ingredient.name = ings := by
  induction ings with
  | nil => intro nid; rfl
  | cons n rest ih => intro nid; simp [ingredientRows, List.filter_cons, ih]

/-- No pre-existing ingredient row can reference the recipe id the
autoincrement counter is about to assign. -/
theorem filter_old_ingredients_nil (s : Store)
    (hfk : ∀ i ∈ s.ingredients, i.recipe_id < s.nextRecipeId) :
    s.ingredients.filter (fun i => i.recipe_id == s.nextRecipeId) = [] := by
  rw [List.filter_eq_nil_iff]
  intro i hi
  have := hfk i hi
  simp only [beq_iff_eq]
  omega

/-- After a create, the new recipe's relationship loads exactly the
submitted ingredient names, in submitted order. -/
theorem create_ingredient_names (s : Store)
    (hfk : ∀ i ∈ s.ingredients, i.recipe_id < s.nextRecipeId)
    (name : String) (ctm : Int) (desc : String) (ings : List String) :
    (ingredientsOf (create_recipe s name ctm desc ings).2 s.nextRecipeId).map
        Ingredient.name = ings := by
  unfold ingredientsOf create_recipe
  simp only [List.filter_append, filter_old_ingredients_nil s hfk, List.nil_append]
  exact ingredientRows_filter_names _ _ _

/-- No pre-existing recipe row can carry the id the autoincrement
counter is about to assign. -/
theorem find_old_recipes_none (s : Store)
    (hlt : ∀ r ∈ s.recipes, r.id < s.nextRecipeId) :
    s.recipes.find? (fun r => r.id == s.nextRecipeId) = none := by
  rw [List.find?_eq_none]
  intro r hr
  have := hlt r hr
  simp only [beq_iff_eq]
  omega

/-- After a create, looking the new id up finds the freshly inserted
row. -/
theorem create_get_by_id (s : Store)
    (hlt : ∀ r ∈ s.recipes, r.id < s.nextRecipeId)
    (name : String) (ctm : Int) (desc : String) (ings : List String) :
    get_recipe_by_id (create_recipe s name ctm desc ings).2 s.nextRecipeId =
      some ⟨s.nextRecipeId, name, ctm, 0, desc⟩ := by
  unfold get_recipe_by_id create_recipe
  simp [List.find?_append, find_old_recipes_none s hlt]

/-- Bumping the views of every row whose id matches moves the first
match along: the lookup after the update returns the found row with
`views + 1`. -/
theorem find_after_bump (l : List Recipe) (rid : Nat) (r : Recipe)
    (h : l.find? (fun q => q.id == rid) = some r) :
    (l.map (fun q => if q.id == rid then { q with views := q.views + 1 } else q)).find?
        (fun q => q.id == rid) = some { r with views := r.views + 1 } := by
  induction l with
  | nil => simp at h
  | cons x xs ih =>
    by_cases hx : x.id = rid
    · have hr : r = x := by
        simp [List.find?_cons, hx] at h
        exact h.symm
      subst hr
      simp [List.find?_cons, hx]
    · have hxb : (x.id == rid) = false := by simpa using hx
      simp only [List.find?_cons, hxb] at h
      simpa [List.find?_cons, hx, hxb] using ih h

/-! ### The claims -/

/-- C1: `GET /recipes` returns all recipes (a permutation of the store's
rows) ordered by views descending, then cook_time_minutes ascending,
then id ascending: every earlier element has views ≥ a later one's; on
equal views its cook time is ≤; on equal views and cook time its id
is ≤ — so with equal views the smaller cook time comes first, and with
equal views and cook time the smaller id comes first. -/
theorem C1_list_sorted_ordered (s : Store) :
    (list_recipes_sorted s).Perm s.recipes ∧
    (list_recipes_sorted s).Pairwise (fun a b =>
      b.views ≤ a.views ∧
      (a.views = b.views → a.cook_time_minutes ≤ b.cook_time_minutes) ∧
      (a.views = b.views → a.cook_time_minutes = b.cook_time_minutes → a.id ≤ b.id)) := by
  constructor
  · exact List.perm_insertionSort recLE s.recipes
  · have h := List.sorted_insertionSort recLE s.recipes
    exact h.imp (fun hab => by revert hab; unfold recLE; omega)

/-- C2: for every valid create payload the returned entity has
`views = 0`, carries the submitted fields, and the persisted state
agrees: looking the assigned id up returns the same row and its
ingredient relationship yields the submitted names in submitted
order. -/
theorem C2_create_views_zero_ingredient_order (s : Store) (hWF : WF s)
    (p : RecipeCreate) (r : Recipe) (s1 : Store)
    (h : create_recipe s p.name p.cook_time_minutes p.description p.ingredients = (r, s1)) :
    r.views = 0 ∧ r.name = p.name ∧ r.cook_time_minutes = p.cook_time_minutes ∧
    r.description = p.description ∧
    (ingredientsOf s1 r.id).map Ingredient.name = p.ingredients ∧
    get_recipe_by_id s1 r.id = some r := by
  have hr : r = ⟨s.nextRecipeId, p.name, p.cook_time_minutes, 0, p.description⟩ := by
    have := congrArg Prod.fst h
    simpa [create_recipe] using this.symm
  have hs1 : s1 = (create_recipe s p.name p.cook_time_minutes p.description p.ingredients).2 := by
    have := congrArg Prod.snd h
    exact this.symm
  subst hs1
  refine ⟨by rw [hr], by rw [hr], by rw [hr], by rw [hr], ?_, ?_⟩
  · rw [hr]
    exact create_ingredient_names s hWF.fkLt _ _ _ _
  · rw [hr]
    exact create_get_by_id s hWF.recipeIdLt _ _ _ _

/-- Witness for C2 at a concrete payload on the fresh store. -/
theorem C2_witness :
    (Recipe.mk 1 "A" 5 0 "d").views = 0 ∧
    (Recipe.mk 1 "A" 5 0 "d").name = "A" ∧
    (Recipe.mk 1 "A" 5 0 "d").cook_time_minutes = 5 ∧
    (Recipe.mk 1 "A" 5 0 "d").description = "d" ∧
    (ingredientsOf
        (Store.mk [Recipe.mk 1 "A" 5 0 "d"]
          [Ingredient.mk 1 1 "x", Ingredient.mk 2 1 "y"] 2 3)
        (Recipe.mk 1 "A" 5 0 "d").id).map Ingredient.name = ["x", "y"] ∧
    get_recipe_by_id
        (Store.mk [Recipe.mk 1 "A" 5 0 "d"]
          [Ingredient.mk 1 1 "x", Ingredient.mk 2 1 "y"] 2 3)
        (Recipe.mk 1 "A" 5 0 "d").id = some (Recipe.mk 1 "A" 5 0 "d") :=
  C2_create_views_zero_ingredient_order Store.init wf_init
    (RecipeCreate.mk "A" 5 "d" ["x", "y"]) (Recipe.mk 1 "A" 5 0 "d")
    (Store.mk [Recipe.mk 1 "A" 5 0 "d"]
      [Ingredient.mk 1 1 "x", Ingredient.mk 2 1 "y"] 2 3) rfl

/-- Unfolding `GET /recipes/{id}` when the id is present: the row's
views are bumped and persisted, and the detail of the bumped row is
returned. -/
theorem get_recipe_found (s : Store) (rid : Nat) (r : Recipe)
    (h : get_recipe_by_id s rid = some r) :
    get_recipe s rid =
      (Except.ok (detailOf
          { s with recipes := s.recipes.map (fun q =>
              if q.id == rid then { q with views := q.views + 1 } else q) }
          { r with views := r.views + 1 }),
        { s with recipes := s.recipes.map (fun q =>
            if q.id == rid then { q with views := q.views + 1 } else q) }) := by
  unfold get_recipe increment_views_and_get
  rw [h]

/-- A detail only depends on the store through its ingredient table. -/
theorem detailOf_congr (s1 s2 : Store) (r : Recipe)
    (h : s1.ingredients = s2.ingredients) : detailOf s1 r = detailOf s2 r := by
  unfold detailOf ingredientsOf
  rw [h]

/-- Invariant of repeated detail calls on a freshly created recipe:
after `k` calls the row is present with `views = k` and the ingredient
table has not moved. -/
theorem after_calls_invariant (s : Store) (hWF : WF s) (name : String) (ctm : Int)
    (desc : String) (ings : List String) : ∀ k,
    get_recipe_by_id
        (afterDetailCalls (create_recipe s name ctm desc ings).2 s.nextRecipeId k)
        s.nextRecipeId = some ⟨s.nextRecipeId, name, ctm, k, desc⟩ ∧
    (afterDetailCalls (create_recipe s name ctm desc ings).2 s.nextRecipeId k).ingredients =
      (create_recipe s name ctm desc ings).2.ingredients := by
  intro k
  induction k with
  | zero => exact ⟨create_get_by_id s hWF.recipeIdLt name ctm desc ings, rfl⟩
  | succ k ih =>
    obtain ⟨hfind, hing⟩ := ih
    have hstep : (increment_views_and_get
          (afterDetailCalls (create_recipe s name ctm desc ings).2 s.nextRecipeId k)
          s.nextRecipeId).2 =
        { afterDetailCalls (create_recipe s name ctm desc ings).2 s.nextRecipeId k with
            recipes := (afterDetailCalls (create_recipe s name ctm desc ings).2
                s.nextRecipeId k).recipes.map (fun q =>
              if q.id == s.nextRecipeId then { q with views := q.views + 1 } else q) } := by
      unfold increment_views_and_get
      rw [hfind]
    have hnext : afterDetailCalls (create_recipe s name ctm desc ings).2 s.nextRecipeId (k + 1) =
        (increment_views_and_get
          (afterDetailCalls (create_recipe s name ctm desc ings).2 s.nextRecipeId k)
          s.nextRecipeId).2 := by
      show (get_recipe _ _).2 = _
      rw [get_recipe_found _ _ _ hfind, hstep]
    constructor
    · rw [hnext, hstep]
      exact find_after_bump _ _ _ hfind
    · rw [hnext, hstep]
      exact hing

/-- C3: when the id exists, `increment_views_and_get` returns the row
with `views` bumped by exactly 1 (the returned value is
post-increment) and the bumped row is what a subsequent lookup finds
(the change is persisted); when the id does not exist, it returns
`none` with the store unchanged and the detail endpoint answers
HTTP 404 with no side effect. -/
theorem C3_increment_found_or_404 (s : Store) (rid : Nat) :
    (∀ r, get_recipe_by_id s rid = some r →
      (increment_views_and_get s rid).1 = some { r with views := r.views + 1 } ∧
      get_recipe_by_id (increment_views_and_get s rid).2 rid =
        some { r with views := r.views + 1 }) ∧
    (get_recipe_by_id s rid = none →
      increment_views_and_get s rid = (none, s) ∧
      get_recipe s rid = (Except.error 404, s)) := by
  constructor
  · intro r hr
    have hstep : increment_views_and_get s rid =
        (some { r with views := r.views + 1 },
          { s with recipes := s.recipes.map (fun q =>
              if q.id == rid then { q with views := q.views + 1 } else q) }) := by
      unfold increment_views_and_get
      rw [hr]
    rw [hstep]
    exact ⟨rfl, find_after_bump s.recipes rid r hr⟩
  · intro hn
    have h1 : increment_views_and_get s rid = (none, s) := by
      unfold increment_views_and_get
      rw [hn]
    refine ⟨h1, ?_⟩
    unfold get_recipe
    rw [h1]

/-- Witness for C3: on the example store, id 1 is found and bumped to
views 1, and id 999999 answers 404 with the store untouched. -/
theorem C3_witness :
    ((increment_views_and_get exampleStore 1).1 = some (Recipe.mk 1 "A" 5 1 "d") ∧
      get_recipe_by_id (increment_views_and_get exampleStore 1).2 1 =
        some (Recipe.mk 1 "A" 5 1 "d")) ∧
    (increment_views_and_get exampleStore 999999 = (none, exampleStore) ∧
      get_recipe exampleStore 999999 = (Except.error 404, exampleStore)) :=
  ⟨(C3_increment_found_or_404 exampleStore 1).1 (Recipe.mk 1 "A" 5 0 "d") (by decide),
   (C3_increment_found_or_404 exampleStore 999999).2 (by decide)⟩

/-- C4: on a freshly created recipe, the k-th sequential detail call
(0-indexed here: `k` prior calls have happened) answers with
`views = k + 1` and the ingredient names in creation order; in
particular after the N-th call the reported views equal N. -/
theorem C4_detail_views_after_n_calls (s : Store) (hWF : WF s) (name : String)
    (ctm : Int) (desc : String) (ings : List String) (N : Nat) (hN : 1 ≤ N) :
    (∀ k, k < N →
      (get_recipe (afterDetailCalls (create_recipe s name ctm desc ings).2
          s.nextRecipeId k) s.nextRecipeId).1 =
        Except.ok (RecipeDetail.mk s.nextRecipeId name ctm (k + 1) ings desc)) ∧
    (get_recipe (afterDetailCalls (create_recipe s name ctm desc ings).2
        s.nextRecipeId (N - 1)) s.nextRecipeId).1 =
      Except.ok (RecipeDetail.mk s.nextRecipeId name ctm N ings desc) := by
  have key : ∀ k,
      (get_recipe (afterDetailCalls (create_recipe s name ctm desc ings).2
          s.nextRecipeId k) s.nextRecipeId).1 =
        Except.ok (RecipeDetail.mk s.nextRecipeId name ctm (k + 1) ings desc) := by
    intro k
    obtain ⟨hfind, hing⟩ := after_calls_invariant s hWF name ctm desc ings k
    rw [get_recipe_found _ _ _ hfind]
    have hing2 : ({ afterDetailCalls (create_recipe s name ctm desc ings).2
          s.nextRecipeId k with
        recipes := (afterDetailCalls (create_recipe s name ctm desc ings).2
            s.nextRecipeId k).recipes.map (fun q =>
          if q.id == s.nextRecipeId then { q with views := q.views + 1 } else q) } :
        Store).ingredients = (create_recipe s name ctm desc ings).2.ingredients := hing
    rw [detailOf_congr _ _ _ hing2]
    simp only [detailOf]
    rw [create_ingredient_names s hWF.fkLt name ctm desc ings]
  refine ⟨fun k _ => key k, ?_⟩
  have h := key (N - 1)
  rwa [Nat.sub_add_cancel hN] at h

/-- Witness for C4: create on the fresh store and call detail twice;
the second response reports views 2 and the single ingredient. -/
theorem C4_witness :
    (get_recipe (afterDetailCalls (create_recipe Store.init "A" 5 "d" ["x"]).2 1 1) 1).1 =
      Except.ok (RecipeDetail.mk 1 "A" 5 2 ["x"] "d") :=
  (C4_detail_views_after_n_calls Store.init wf_init "A" 5 "d" ["x"] 2 (by decide)).2

/-- The pydantic constraints of `schemas.py` hold exactly when none of
the violations the claim lists is present. -/
theorem validCreate_iff_not_violation (p : RecipeCreate) :
    validCreate p = true ↔ ¬ claimViolation p := by
  unfold validCreate claimViolation
  simp only [Bool.and_eq_true, decide_eq_true_eq, List.all_eq_true, not_or, not_lt,
    not_exists, not_and]
  constructor
  · rintro ⟨⟨⟨⟨⟨h1, h2⟩, h3⟩, h4⟩, h5⟩, h6⟩
    refine ⟨by omega, by omega, by omega, by omega, by omega, ?_⟩
    intro n hn
    have := h6 n hn
    omega
  · rintro ⟨h1, h2, h3, h4, h5, h6⟩
    refine ⟨⟨⟨⟨⟨by omega, by omega⟩, by omega⟩, by omega⟩, by omega⟩, ?_⟩
    intro n hn
    have := h6 n hn
    omega

/-- C5: a create request is answered 422 with nothing persisted exactly
when some field violates the constraints (name empty or over 200
characters, cook_time_minutes outside 1..1440, description empty, an
ingredient name empty or over 200 characters), and is accepted (a 201
detail is returned) exactly when no field does. -/
theorem C5_reject_iff_violation (s : Store) (p : RecipeCreate) :
    (post_recipe s p = (Except.error 422, s) ↔ claimViolation p) ∧
    ((∃ d, (post_recipe s p).1 = Except.ok d) ↔ ¬ claimViolation p) := by
  by_cases hb : validCreate p = true
  · have hcv : ¬ claimViolation p := (validCreate_iff_not_violation p).mp hb
    have hpost : post_recipe s p =
        (Except.ok (detailOf
            (create_recipe s p.name p.cook_time_minutes p.description p.ingredients).2
            (create_recipe s p.name p.cook_time_minutes p.description p.ingredients).1),
          (create_recipe s p.name p.cook_time_minutes p.description p.ingredients).2) := by
      unfold post_recipe
      rw [if_pos hb]
    constructor
    · constructor
      · intro h
        rw [hpost] at h
        exact absurd (congrArg Prod.fst h) (by simp)
      · intro h
        exact absurd h hcv
    · constructor
      · intro _
        exact hcv
      · intro _
        exact ⟨_, by rw [hpost]⟩
  · have hcv : claimViolation p := by
      by_contra hc
      exact hb ((validCreate_iff_not_violation p).mpr hc)
    have hpost : post_recipe s p = (Except.error 422, s) := by
      unfold post_recipe
      rw [if_neg hb]
    refine ⟨⟨fun _ => hcv, fun _ => hpost⟩, ?_, fun h => absurd hcv h⟩
    rintro ⟨d, hd⟩
    rw [hpost] at hd
    simp at hd

/-- C6: views start at 0 at creation and are monotonically
non-decreasing: create returns a row with `views = 0` and keeps every
existing row untouched, the list query does not change the store, and
increment maps every row to a row with the same id and other fields
and views no smaller. (`get_recipe_by_id` is a pure query by its very
type, `Store → Option Recipe`.) -/
theorem C6_views_monotone (s : Store) (name : String) (ctm : Int) (desc : String)
    (ings : List String) (rid : Nat) :
    (create_recipe s name ctm desc ings).1.views = 0 ∧
    (∀ r ∈ s.recipes, r ∈ (create_recipe s name ctm desc ings).2.recipes) ∧
    (get_recipes s).2 = s ∧
    (∀ q ∈ s.recipes, ∃ q2 ∈ (increment_views_and_get s rid).2.recipes,
      q2.id = q.id ∧ q2.name = q.name ∧ q2.cook_time_minutes = q.cook_time_minutes ∧
      q2.description = q.description ∧ q.views ≤ q2.views) := by
  refine ⟨rfl, ?_, rfl, ?_⟩
  · intro r hr
    exact List.mem_append_left _ hr
  · intro q hq
    rcases hfind : get_recipe_by_id s rid with _ | r
    · have hid : increment_views_and_get s rid = (none, s) := by
        unfold increment_views_and_get
        rw [hfind]
      rw [hid]
      exact ⟨q, hq, rfl, rfl, rfl, rfl, Nat.le_refl _⟩
    · have hstep : (increment_views_and_get s rid).2 =
          { s with recipes := s.recipes.map (fun q =>
              if q.id == rid then { q with views := q.views + 1 } else q) } := by
        unfold increment_views_and_get
        rw [hfind]
      rw [hstep]
      by_cases hq2 : (q.id == rid) = true
      · exact ⟨{ q with views := q.views + 1 },
          List.mem_map.mpr ⟨q, hq, by rw [if_pos hq2]⟩,
          rfl, rfl, rfl, rfl, Nat.le_succ _⟩
      · exact ⟨q, List.mem_map.mpr ⟨q, hq, by rw [if_neg hq2]⟩,
          rfl, rfl, rfl, rfl, Nat.le_refl _⟩

/-- Witness for C6 on the example store. -/
theorem C6_witness :
    (create_recipe exampleStore "B" 7 "e" []).1.views = 0 ∧
    Recipe.mk 1 "A" 5 0 "d" ∈ (create_recipe exampleStore "B" 7 "e" []).2.recipes ∧
    (get_recipes exampleStore).2 = exampleStore ∧
    (∃ q2 ∈ (increment_views_and_get exampleStore 1).2.recipes,
      q2.id = (Recipe.mk 1 "A" 5 0 "d").id ∧
      q2.name = (Recipe.mk 1 "A" 5 0 "d").name ∧
      q2.cook_time_minutes = (Recipe.mk 1 "A" 5 0 "d").cook_time_minutes ∧
      q2.description = (Recipe.mk 1 "A" 5 0 "d").description ∧
      (Recipe.mk 1 "A" 5 0 "d").views ≤ q2.views) := by
  have h := C6_views_monotone exampleStore "B" 7 "e" [] 1
  exact ⟨h.1, h.2.1 _ (by decide), h.2.2.1,
    h.2.2.2 (Recipe.mk 1 "A" 5 0 "d") (by decide)⟩

/-- Every row inserted by one create carries that create's recipe id as
its foreign key. -/
theorem ingredientRows_fk (rid : Nat) (ings : List String) :
    ∀ nid i, i ∈ ingredientRows rid nid ings → i.recipe_id = rid := by
  induction ings with
  | nil =>
    intro nid i hi
    cases hi
  | cons n rest ih =>
    intro nid i hi
    rcases List.mem_cons.mp hi with h | h
    · rw [h]
    · exact ih (nid + 1) i h

/-- C8: in every store state reachable through the data-access
operations, every ingredient row's foreign key names the id of a recipe
row that is present: recipe and ingredients are inserted together by
create, and no operation deletes or reparents either. -/
theorem C8_ingredient_fk_live (s : Store) (h : Reachable s) :
    ∀ i ∈ s.ingredients, ∃ r ∈ s.recipes, r.id = i.recipe_id := by
  induction h with
  | init =>
    intro i hi
    cases hi
  | create s0 name ctm desc ings _ ih =>
    intro i hi
    have hi2 : i ∈ s0.ingredients ++ ingredientRows s0.nextRecipeId s0.nextIngredientId ings :=
      hi
    rcases List.mem_append.mp hi2 with hold | hnew
    · obtain ⟨r, hr, hid⟩ := ih i hold
      exact ⟨r, List.mem_append_left _ hr, hid⟩
    · refine ⟨⟨s0.nextRecipeId, name, ctm, 0, desc⟩,
        List.mem_append_right _ (List.mem_singleton.mpr rfl), ?_⟩
      exact (ingredientRows_fk s0.nextRecipeId ings s0.nextIngredientId i hnew).symm
  | incr s0 rid _ ih =>
    intro i hi
    rcases hfind : get_recipe_by_id s0 rid with _ | r0
    · have hid : increment_views_and_get s0 rid = (none, s0) := by
        unfold increment_views_and_get
        rw [hfind]
      rw [hid] at hi ⊢
      exact ih i hi
    · have hstep : (increment_views_and_get s0 rid).2 =
          { s0 with recipes := s0.recipes.map (fun q =>
              if q.id == rid then { q with views := q.views + 1 } else q) } := by
        unfold increment_views_and_get
        rw [hfind]
      rw [hstep] at hi ⊢
      have hi2 : i ∈ s0.ingredients := hi
      obtain ⟨r, hr, hid⟩ := ih i hi2
      by_cases hr2 : (r.id == rid) = true
      · exact ⟨{ r with views := r.views + 1 },
          List.mem_map.mpr ⟨r, hr, by rw [if_pos hr2]⟩, hid⟩
      · exact ⟨r, List.mem_map.mpr ⟨r, hr, by rw [if_neg hr2]⟩, hid⟩

/-- Witness for C8: the store obtained by one create on the fresh
database is reachable, and its single ingredient row's foreign key is
covered by the created recipe. -/
theorem C8_witness :
    ∃ r ∈ (create_recipe Store.init "A" 5 "d" ["x"]).2.recipes,
      r.id = (Ingredient.mk 1 1 "x").recipe_id :=
  C8_ingredient_fk_live _ (Reachable.create Store.init "A" 5 "d" ["x"] Reachable.init)
    (Ingredient.mk 1 1 "x") (by decide)

/-- C9: `increment_views_and_get` leaves the ingredient table, both
counters, the number of recipe rows, and every field of every recipe
row other than the hit row's `views` unchanged; rows whose id differs
from the requested one are exactly preserved; the list endpoint leaves
the whole store unchanged (and `get_recipe_by_id` is a pure query by
its very type `Store → Option Recipe`). -/
theorem C9_increment_frame (s : Store) (rid : Nat) :
    (increment_views_and_get s rid).2.ingredients = s.ingredients ∧
    (increment_views_and_get s rid).2.nextRecipeId = s.nextRecipeId ∧
    (increment_views_and_get s rid).2.nextIngredientId = s.nextIngredientId ∧
    (∀ rid2, ingredientsOf (increment_views_and_get s rid).2 rid2 = ingredientsOf s rid2) ∧
    (increment_views_and_get s rid).2.recipes.length = s.recipes.length ∧
    (∀ k (hk : k < s.recipes.length)
        (hk2 : k < (increment_views_and_get s rid).2.recipes.length),
      ((increment_views_and_get s rid).2.recipes.get ⟨k, hk2⟩).id =
          (s.recipes.get ⟨k, hk⟩).id ∧
      ((increment_views_and_get s rid).2.recipes.get ⟨k, hk2⟩).name =
          (s.recipes.get ⟨k, hk⟩).name ∧
      ((increment_views_and_get s rid).2.recipes.get ⟨k, hk2⟩).cook_time_minutes =
          (s.recipes.get ⟨k, hk⟩).cook_time_minutes ∧
      ((increment_views_and_get s rid).2.recipes.get ⟨k, hk2⟩).description =
          (s.recipes.get ⟨k, hk⟩).description ∧
      ((s.recipes.get ⟨k, hk⟩).id ≠ rid →
        (increment_views_and_get s rid).2.recipes.get ⟨k, hk2⟩ = s.recipes.get ⟨k, hk⟩)) ∧
    (get_recipes s).2 = s := by
  rcases hfind : get_recipe_by_id s rid with _ | r
  · have hid : increment_views_and_get s rid = (none, s) := by
      unfold increment_views_and_get
      rw [hfind]
    rw [hid]
    exact ⟨rfl, rfl, rfl, fun _ => rfl, rfl,
      fun k hk hk2 => ⟨rfl, rfl, rfl, rfl, fun _ => rfl⟩, rfl⟩
  · have hstep : (increment_views_and_get s rid).2 =
        { s with recipes := s.recipes.map (fun q =>
            if q.id == rid then { q with views := q.views + 1 } else q) } := by
      unfold increment_views_and_get
      rw [hfind]
    rw [hstep]
    refine ⟨rfl, rfl, rfl, fun _ => rfl, List.length_map _ _, ?_, rfl⟩
    intro k hk hk2
    refine ⟨?_, ?_, ?_, ?_, ?_⟩
    · by_cases hc : s.recipes[k].id = rid <;> simp [hc]
    · by_cases hc : s.recipes[k].id = rid <;> simp [hc]
    · by_cases hc : s.recipes[k].id = rid <;> simp [hc]
    · by_cases hc : s.recipes[k].id = rid <;> simp [hc]
    · intro hne
      have hc : ¬ s.recipes[k].id = rid := hne
      simp [hc]

/-- Witness for C9 on the example store with its single row at
position 0. -/
theorem C9_witness :
    (increment_views_and_get exampleStore 1).2.ingredients = exampleStore.ingredients ∧
    (increment_views_and_get exampleStore 1).2.nextRecipeId = exampleStore.nextRecipeId ∧
    (increment_views_and_get exampleStore 1).2.nextIngredientId =
      exampleStore.nextIngredientId ∧
    ingredientsOf (increment_views_and_get exampleStore 1).2 1 =
      ingredientsOf exampleStore 1 ∧
    (increment_views_and_get exampleStore 1).2.recipes.length =
      exampleStore.recipes.length ∧
    ((increment_views_and_get exampleStore 1).2.recipes.get ⟨0, by decide⟩).name =
      (exampleStore.recipes.get ⟨0, by decide⟩).name ∧
    (get_recipes exampleStore).2 = exampleStore := by
  have h := C9_increment_frame exampleStore 1
  exact ⟨h.1, h.2.1, h.2.2.1, h.2.2.2.1 1, h.2.2.2.2.1,
    (h.2.2.2.2.2.1 0 (by decide) (by decide)).2.1, h.2.2.2.2.2.2⟩

/-- C10: a create payload with an empty ingredients list but otherwise
valid fields is accepted: the endpoint answers with the created detail
carrying an empty ingredient list, the recipe row is persisted, and no
ingredient row is added — no minimum ingredient count is enforced. -/
theorem C10_empty_ingredients_accepted (s : Store) (hWF : WF s) (p : RecipeCreate)
    (h1 : 1 ≤ p.name.length) (h2 : p.name.length ≤ 200)
    (h3 : 1 ≤ p.cook_time_minutes) (h4 : p.cook_time_minutes ≤ 1440)
    (h5 : 1 ≤ p.description.length) (h6 : p.ingredients = []) :
    (post_recipe s p).1 =
      Except.ok (RecipeDetail.mk s.nextRecipeId p.name p.cook_time_minutes 0 []
        p.description) ∧
    (post_recipe s p).2.recipes =
      s.recipes ++ [Recipe.mk s.nextRecipeId p.name p.cook_time_minutes 0
        p.description] ∧
    (post_recipe s p).2.ingredients = s.ingredients := by
  have hv : validCreate p = true := by
    unfold validCreate
    rw [h6]
    simp only [List.all_nil, Bool.and_true, Bool.and_eq_true, decide_eq_true_eq]
    refine ⟨⟨⟨⟨h1, h2⟩, h3⟩, by omega⟩, h5⟩
  have hpost : post_recipe s p =
      (Except.ok (detailOf
          (create_recipe s p.name p.cook_time_minutes p.description p.ingredients).2
          (create_recipe s p.name p.cook_time_minutes p.description p.ingredients).1),
        (create_recipe s p.name p.cook_time_minutes p.description p.ingredients).2) := by
    unfold post_recipe
    rw [if_pos hv]
  rw [hpost, h6]
  refine ⟨?_, ?_, ?_⟩
  · unfold detailOf
    rw [show ((create_recipe s p.name p.cook_time_minutes p.description []).1.id) =
        s.nextRecipeId from rfl]
    rw [create_ingredient_names s hWF.fkLt p.name p.cook_time_minutes p.description []]
    rfl
  · rfl
  · show s.ingredients ++ ([] : List Ingredient) = s.ingredients
    exact List.append_nil _

/-- Witness for C10 on the fresh store with a concrete payload. -/
theorem C10_witness :
    (post_recipe Store.init (RecipeCreate.mk "A" 5 "d" [])).1 =
      Except.ok (RecipeDetail.mk 1 "A" 5 0 [] "d") ∧
    (post_recipe Store.init (RecipeCreate.mk "A" 5 "d" [])).2.recipes =
      [] ++ [Recipe.mk 1 "A" 5 0 "d"] ∧
    (post_recipe Store.init (RecipeCreate.mk "A" 5 "d" [])).2.ingredients = [] :=
  C10_empty_ingredients_accepted Store.init wf_init (RecipeCreate.mk "A" 5 "d" [])
    (by decide) (by decide) (by decide) (by decide) (by decide) rfl

/-- Witness for C1 on the example store. -/
theorem C1_witness :
    (list_recipes_sorted exampleStore).Perm exampleStore.recipes ∧
    (list_recipes_sorted exampleStore).Pairwise (fun a b =>
      b.views ≤ a.views ∧
      (a.views = b.views → a.cook_time_minutes ≤ b.cook_time_minutes) ∧
      (a.views = b.views → a.cook_time_minutes = b.cook_time_minutes → a.id ≤ b.id)) :=
  C1_list_sorted_ordered exampleStore

/-- Witness for C5 at the empty-name payload the repository's own test
sends. -/
theorem C5_witness :
    (post_recipe Store.init (RecipeCreate.mk "" 25 "Test" []) =
        (Except.error 422, Store.init) ↔
      claimViolation (RecipeCreate.mk "" 25 "Test" [])) ∧
    ((∃ d, (post_recipe Store.init (RecipeCreate.mk "" 25 "Test" [])).1 = Except.ok d) ↔
      ¬ claimViolation (RecipeCreate.mk "" 25 "Test" [])) :=
  C5_reject_iff_violation Store.init (RecipeCreate.mk "" 25 "Test" [])

end RecipeService
